import Mathlib

/-!
Verification development for the DiViz frontend (Next.js SPA).

The definitions below are shallow embeddings of the client-side routines of
the repository: the Meet-code normalization and calendar search in
`searchMeetByCode` (app/page.tsx variants), the auth-token initialization in
`AuthProvider` (app/auth-context.tsx), the logout button handler, the
per-endpoint HTTP status handling, and the duration formatter of the
meeting-info renderer.  Strings are modelled as lists of characters
(`String.data`); JavaScript regular-expression searches are modelled by
explicit left-to-right scanners with the same semantics on the concrete
patterns used by the code.
-/

namespace Diviz

/-- ASCII case folding: `A`-`Z` map to `a`-`z`, everything else is unchanged.
This is the canonicalization a JavaScript regex without the `u` flag applies
when matching an ASCII pattern character under the `i` flag: a non-ASCII
character never matches an ASCII pattern character, even when its lowercase
is ASCII. -/
def asciiFold : Char → Char
  | 'A' => 'a'
  | 'B' => 'b'
  | 'C' => 'c'
  | 'D' => 'd'
  | 'E' => 'e'
  | 'F' => 'f'
  | 'G' => 'g'
  | 'H' => 'h'
  | 'I' => 'i'
  | 'J' => 'j'
  | 'K' => 'k'
  | 'L' => 'l'
  | 'M' => 'm'
  | 'N' => 'n'
  | 'O' => 'o'
  | 'P' => 'p'
  | 'Q' => 'q'
  | 'R' => 'r'
  | 'S' => 's'
  | 'T' => 't'
  | 'U' => 'u'
  | 'V' => 'v'
  | 'W' => 'w'
  | 'X' => 'x'
  | 'Y' => 'y'
  | 'Z' => 'z'
  | c => c

/-- Per-character model of JS `String.prototype.toLowerCase`: the ASCII fold
plus U+212A KELVIN SIGN → `k`, the one code point outside ASCII whose
lowercase is an ASCII letter.  Non-ASCII mappings that stay outside ASCII
(for example `À` → `à`) are modelled as the identity — they can never create
or destroy a `[a-z]`/dash pattern match — and U+0130's two-character
expansion is not representable in a character-to-character map. -/
def jsLower (c : Char) : Char :=
  if c = '\u212A' then 'k' else asciiFold c

/-- Lowercase a character list (JS `String.prototype.toLowerCase`). -/
def lowerL (l : List Char) : List Char := l.map jsLower

/-- Whitespace characters removed by JS `String.prototype.trim` (ASCII part). -/
def isJsWs (c : Char) : Bool :=
  c = ' ' || c = '\t' || c = '\n' || c = '\r' || c = '\x0b' || c = '\x0c'

/-- JS `String.prototype.trim`: strip leading and trailing whitespace. -/
def trimL (l : List Char) : List Char :=
  ((l.dropWhile isJsWs).reverse.dropWhile isJsWs).reverse

/-- The character class `[a-z]` under the `i` regex flag: ASCII letters. -/
def isAsciiLetter (c : Char) : Bool :=
  ('a' ≤ c && c ≤ 'z') || ('A' ≤ c && c ≤ 'Z')

/-- Consume exactly `n` ASCII letters from the front of `l`, returning the
letters and the remainder (regex `[a-z]{n}` with the `i` flag). -/
def takeLetters : Nat → List Char → Option (List Char × List Char)
  | 0, l => some ([], l)
  | _ + 1, [] => none
  | n + 1, c :: rest =>
    if isAsciiLetter c then
      (takeLetters n rest).map (fun p => (c :: p.1, p.2))
    else none

/-- Consume a literal dash from the front of `l`. -/
def expectDash : List Char → Option (List Char)
  | [] => none
  | d :: rest => if d = '-' then some rest else none

/-- Three dash-separated character groups, `g1-g2-g3`. -/
def codeShape (g1 g2 g3 : List Char) : List Char :=
  g1 ++ ('-' :: (g2 ++ ('-' :: g3)))

/-- Three dash-separated character groups followed by a tail, `g1-g2-g3` ++ r. -/
def codeShapeT (g1 g2 g3 r : List Char) : List Char :=
  g1 ++ ('-' :: (g2 ++ ('-' :: (g3 ++ r))))

/-- Try to match the regex `[a-z]{3}-[a-z]{k}-[a-z]{3}` (flag `i`) at the head
of `l`; on success return the matched characters. -/
def patAt (k : Nat) (l : List Char) : Option (List Char) :=
  (takeLetters 3 l).bind (fun p1 =>
    (expectDash p1.2).bind (fun r2 =>
      (takeLetters k r2).bind (fun p2 =>
        (expectDash p2.2).bind (fun r4 =>
          (takeLetters 3 r4).map (fun p3 => codeShape p1.1 p2.1 p3.1)))))

/-- Leftmost match of `[a-z]{3}-[a-z]{k}-[a-z]{3}` (flag `i`) in `l`, the
semantics of JS `String.prototype.match` with a non-global regex. -/
def findPat (k : Nat) : List Char → Option (List Char)
  | [] => none
  | c :: rest =>
    match patAt k (c :: rest) with
    | some m => some m
    | none => findPat k rest

/-- The `codeFromInput` normalizer of `searchMeetByCode`: trim the input, try
the `xxx-xxxx-xxx` pattern, then the `xxx-xxx-xxx` pattern, and lowercase the
match (or, with no match, the trimmed input). -/
def codeFromInputL (input : List Char) : List Char :=
  match findPat 4 (trimL input) with
  | some m => lowerL m
  | none =>
    match findPat 3 (trimL input) with
    | some m => lowerL m
    | none => lowerL (trimL input)

/-- String-level wrapper for `codeFromInputL`. -/
def codeFromInput (s : String) : String := String.mk (codeFromInputL s.data)

/-- Case-insensitive literal prefix: drop `pat` from the front of `l` when it
matches ignoring ASCII case, as a regex literal of ASCII characters under the
`i` flag (without `u`) does: only the ASCII case fold applies, so a non-ASCII
character never matches an ASCII pattern character. -/
def stripCi : List Char → List Char → Option (List Char)
  | [], l => some l
  | _ :: _, [] => none
  | p :: ps, c :: cs => if asciiFold c = asciiFold p then stripCi ps cs else none

/-- The literal part of the Meet-URL regex `meet\.google\.com\/...`. -/
def meetHost : List Char := "meet.google.com/".data

/-- The optional `lookup\/` segment of the Meet-URL regex. -/
def lookupSeg : List Char := "lookup/".data

/-- The run `[a-z\-]+` (flag `i`): longest prefix of letters and dashes. -/
def codeRun (l : List Char) : List Char :=
  (l.span (fun c => isAsciiLetter c || c = '-')).1

/-- Leftmost match of `meet\.google\.com\/(?:lookup\/)?([a-z\-]+)` (flag `i`),
returning the captured group.  The optional `lookup/` segment is consumed
greedily and given up again when no code characters follow it, exactly as the
backtracking regex engine does. -/
def meetScan : List Char → Option (List Char)
  | [] => none
  | c :: rest =>
    match stripCi meetHost (c :: rest) with
    | some after =>
      (match stripCi lookupSeg after with
      | some after2 =>
        if codeRun after2 ≠ [] then some (codeRun after2)
        else if codeRun after ≠ [] then some (codeRun after)
        else meetScan rest
      | none =>
        if codeRun after ≠ [] then some (codeRun after)
        else meetScan rest)
    | none => meetScan rest

/-- The `extractCode` helper of `searchMeetByCode`: `null` for a missing or
empty URI, else the lowercased captured group of the Meet-URL regex (or
`null` when the regex does not match). -/
def extractCode (uri : Option String) : Option String :=
  match uri with
  | none => none
  | some s =>
    if s = "" then none
    else (meetScan s.data).map (fun run => String.mk (lowerL run))

/-- `needle` is a prefix of `hay` (character-exact). -/
def isPrefixL : List Char → List Char → Bool
  | [], _ => true
  | _ :: _, [] => false
  | a :: xs, b :: ys => a = b && isPrefixL xs ys

/-- JS `String.prototype.includes` on character lists: `needle` occurs as a
contiguous substring of `hay`. -/
def containsL : List Char → List Char → Bool
  | [], needle => needle.isEmpty
  | c :: rest, needle => isPrefixL needle (c :: rest) || containsL rest needle

/-- String-level `includes`. -/
def strIncludes (hay needle : String) : Bool := containsL hay.data needle.data

/-- A conferencing entry point of a calendar event (only the `uri` field is
read by the code). -/
structure EntryPoint where
  uri : Option String
  deriving DecidableEq

/-- The `conferenceData` of a calendar event (only `entryPoints` is read). -/
structure ConferenceData where
  entryPoints : List EntryPoint
  deriving DecidableEq

/-- The organizer of a calendar event (only `email` is rendered). -/
structure Organizer where
  email : Option String
  deriving DecidableEq

/-- A calendar event with exactly the fields `searchMeetByCode` projects into
its result (`id`, `status`, `summary`, `description`, `start`, `end`,
`organizer`, `attendees`, `hangoutLink`, `conferenceData`, `htmlLink`);
start/end carry the raw ISO strings of `dateTime`/`date`. -/
structure GEvent where
  id : Option String
  status : Option String
  summary : Option String
  description : Option String
  startDateTime : Option String
  endDateTime : Option String
  organizer : Option Organizer
  attendees : Option (List String)
  hangoutLink : Option String
  conferenceData : Option ConferenceData
  htmlLink : Option String
  deriving DecidableEq

/-- The match predicate of `searchMeetByCode`:
`(linkCode && linkCode.includes(code)) || epCodes.some(c => c.includes(code))`
where `linkCode` is extracted from `hangoutLink` and `epCodes` from the
conference entry-point URIs. -/
def matchesEvent (ev : GEvent) (code : String) : Bool :=
  (match extractCode ev.hangoutLink with
   | some c => strIncludes c code
   | none => false) ||
  (((ev.conferenceData.map ConferenceData.entryPoints).getD []).filterMap
      (fun p => extractCode p.uri)).any (fun c => strIncludes c code)

/-- A calendar as kept by `searchMeetByCode` after `calendarList.list`. -/
structure Calendar where
  id : String
  summary : String
  deriving DecidableEq

/-- The per-calendar accumulation loop of `searchMeetByCode`: list the events
of each calendar in order, skipping (not aborting on) calendars whose
`events.list` call throws. -/
def collectSearched (listEvents : Calendar → Except String (List GEvent)) :
    List Calendar → List (Calendar × GEvent)
  | [] => []
  | cal :: rest =>
    (match listEvents cal with
     | .ok items => items.map (fun ev => (cal, ev))
     | .error _ => []) ++ collectSearched listEvents rest

/-- The value returned by `searchMeetByCode`. -/
structure SearchResult where
  input : String
  normalizedCode : String
  «matches» : List (Calendar × GEvent)
  searchedCalendars : Nat
  deriving DecidableEq

/-- `searchMeetByCode`, with the calendar enumeration and the per-calendar
`events.list` outcome supplied by the environment. -/
def searchMeetByCode (cals : List Calendar)
    (listEvents : Calendar → Except String (List GEvent))
    (inputCode : String) : SearchResult :=
  { input := inputCode
    normalizedCode := codeFromInput inputCode
    «matches» :=
      (collectSearched listEvents cals).filter
        (fun p => matchesEvent p.2 (codeFromInput inputCode))
    searchedCalendars := cals.length }

/-- The argument record passed to `gapi.client.calendar.events.list`
(`timeMin`/`timeMax` in epoch milliseconds; the code converts them to ISO
strings before sending). -/
structure EventsListParams where
  calendarId : String
  maxResults : Nat
  singleEvents : Bool
  orderBy : String
  timeMin : Int
  timeMax : Int
  showDeleted : Bool
  conferenceDataVersion : Nat
  deriving DecidableEq

/-- Milliseconds per day. -/
def msPerDay : Int := 24 * 60 * 60 * 1000

/-- `tdelta = 30 * 24 * 60 * 60 * 1000` of `searchMeetByCode`. -/
def tdelta : Int := 30 * msPerDay

/-- `aweek = 7 * 24 * 60 * 60 * 1000` of the tabbed-page variant. -/
def aweek : Int := 7 * msPerDay

/-- The `events.list` arguments of the tabbed-page (`meetings` tab) variant of
`searchMeetByCode`: `timeMin = now - tdelta`, `timeMax = now + aweek`. -/
def eventsListParamsV2 (now : Int) (cal : Calendar) : EventsListParams :=
  { calendarId := cal.id
    maxResults := 50
    singleEvents := true
    orderBy := "startTime"
    timeMin := now - tdelta
    timeMax := now + aweek
    showDeleted := false
    conferenceDataVersion := 1 }

/-- The `events.list` arguments of the two-tab page variant of
`searchMeetByCode`: `timeMin = now - tdelta`, `timeMax = now` (no forward
window). -/
def eventsListParamsV1 (now : Int) (cal : Calendar) : EventsListParams :=
  { calendarId := cal.id
    maxResults := 50
    singleEvents := true
    orderBy := "startTime"
    timeMin := now - tdelta
    timeMax := now
    showDeleted := false
    conferenceDataVersion := 1 }

/-- Split a character list at every occurrence of `sep`. -/
def splitOnChar (sep : Char) : List Char → List (List Char)
  | [] => [[]]
  | c :: rest =>
    if c = sep then [] :: splitOnChar sep rest
    else
      match splitOnChar sep rest with
      | [] => [[c]]
      | piece :: more => (c :: piece) :: more

/-- Value of an ASCII hexadecimal digit (digits 0-9 have codes 48-57,
lowercase a-f codes 97-102, uppercase A-F codes 65-70). -/
def hexDigit (c : Char) : Option Nat :=
  let n := c.toNat
  if 48 ≤ n && n ≤ 57 then some (n - 48)
  else if 97 ≤ n && n ≤ 102 then some (n - 87)
  else if 65 ≤ n && n ≤ 70 then some (n - 55)
  else none

/-- `application/x-www-form-urlencoded` decoding as `URLSearchParams` applies
it to keys and values: `+` becomes a space and `%HH` is decoded (ASCII
range). -/
def pctDecode : List Char → List Char
  | [] => []
  | '%' :: a :: b :: rest =>
    (match hexDigit a, hexDigit b with
    | some x, some y => Char.ofNat (16 * x + y) :: pctDecode rest
    | _, _ => '%' :: pctDecode (a :: b :: rest))
  | '+' :: rest => ' ' :: pctDecode rest
  | c :: rest => c :: pctDecode rest

/-- Split one `key=value` piece at the first `=` (no `=` means empty value). -/
def splitKV (piece : List Char) : List Char × List Char :=
  (piece.takeWhile (fun c => c ≠ '='), (piece.dropWhile (fun c => c ≠ '=')).drop 1)

/-- `new URLSearchParams(s)`: split on `&`, drop empty pieces, split each
piece at its first `=`, and decode keys and values. -/
def parseParams (l : List Char) : List (String × String) :=
  (splitOnChar '&' l).filterMap (fun piece =>
    if piece.isEmpty then none
    else some (String.mk (pctDecode (splitKV piece).1),
               String.mk (pctDecode (splitKV piece).2)))

/-- `URLSearchParams.get`: the value of the first pair with the given key, or
`null`. -/
def getParam (ps : List (String × String)) (k : String) : Option String :=
  (ps.find? (fun p => p.1 == k)).map (fun p => p.2)

/-- JavaScript truthiness of a nullable string: `null` and `""` are falsy. -/
def jsTruthy : Option String → Bool
  | none => false
  | some s => s ≠ ""

/-- The browser state `AuthProvider` reads on a page load: the location parts
and the `auth_token` entry of session storage, plus the current in-memory
token (null on first render). -/
structure PageState where
  pathname : String
  search : String
  hash : String
  storage : Option String
  token : Option String
  deriving DecidableEq

/-- `params.get('access_token') || params.get('id_token')` over the URL
fragment with a leading `#` removed. -/
def fragTokenOf (st : PageState) : Option String :=
  let h :=
    match st.hash.data with
    | '#' :: rest => rest
    | l => l
  let a := getParam (parseParams h) "access_token"
  if jsTruthy a then a else getParam (parseParams h) "id_token"

/-- A network request the initialization routine could issue; exchanging an
authorization code with the backend callback endpoint is the only kind the
specification mentions. -/
inductive NetRequest where
  | exchangeCode (code : String)
  deriving DecidableEq

/-- The observable outcome of the `AuthProvider` initialization effect: the
resulting in-memory token, the `auth_token` entry of session storage, the
visible URL, and the network requests issued while initializing. -/
structure AuthInit where
  token : Option String
  storage : Option String
  url : String
  requests : List NetRequest
  deriving DecidableEq

/-- The visible URL before any `history.replaceState`. -/
def fullUrl (st : PageState) : String := st.pathname ++ st.search ++ st.hash

/-- `handleTokenUpdate` of `AuthProvider` (auth-context.tsx): adopt a truthy
fragment token, persist it via `setToken`, and replace the visible URL with
`window.location.pathname`; otherwise fall back to the stored token.  The
routine performs no fetch, so `requests` is always empty. -/
def handleTokenUpdate (st : PageState) : AuthInit :=
  if jsTruthy (fragTokenOf st) then
    { token := fragTokenOf st
      storage := fragTokenOf st
      url := st.pathname
      requests := [] }
  else
    match st.storage with
    | some stored =>
      if stored ≠ "" ∧ some stored ≠ st.token then
        { token := some stored, storage := st.storage, url := fullUrl st, requests := [] }
      else
        { token := st.token, storage := st.storage, url := fullUrl st, requests := [] }
    | none => { token := st.token, storage := st.storage, url := fullUrl st, requests := [] }

/-- Whether the page-load URL carries an authorization `code` query parameter
(a condition on inputs; the source never inspects the query string). -/
def hasCodeParam (search : String) : Bool :=
  jsTruthy (getParam (parseParams
    (match search.data with
     | '?' :: rest => rest
     | l => l)) "code")

/-- The observable outcome of one backend fetch handler run against a
response status: whether the session token was cleared (`logout()`), the
router navigations performed, the inline error message shown, and whether the
success path stored the response data. -/
structure FetchOutcome where
  tokenCleared : Bool
  navigations : List String
  errorShown : Option String
  dataSet : Bool
  deriving DecidableEq

/-- JS `Response.ok`: status in the 2xx range. -/
def resOk (status : Nat) : Bool := 200 ≤ status && status < 300

/-- `fetchUser`: 401 clears the token and navigates to `/login`; other
non-2xx statuses only show an inline error. -/
def fetchUserOn (status : Nat) : FetchOutcome :=
  if status = 401 then
    { tokenCleared := true, navigations := ["/login"], errorShown := none, dataSet := false }
  else if resOk status then
    { tokenCleared := false, navigations := [], errorShown := none, dataSet := true }
  else
    { tokenCleared := false, navigations := []
      errorShown := some "Failed to load user data", dataSet := false }

/-- `fetchMeetings`: same 401 handling as `fetchUser`. -/
def fetchMeetingsOn (status : Nat) : FetchOutcome :=
  if status = 401 then
    { tokenCleared := true, navigations := ["/login"], errorShown := none, dataSet := false }
  else if resOk status then
    { tokenCleared := false, navigations := [], errorShown := none, dataSet := true }
  else
    { tokenCleared := false, navigations := []
      errorShown := some "Failed to load meetings", dataSet := false }

/-- `fetchMeetingDetails`: 401 clears and navigates; 404 shows "Meeting not
found"; other non-2xx statuses show an inline error. -/
def fetchMeetingDetailsOn (status : Nat) : FetchOutcome :=
  if status = 401 then
    { tokenCleared := true, navigations := ["/login"], errorShown := none, dataSet := false }
  else if status = 404 then
    { tokenCleared := false, navigations := []
      errorShown := some "Meeting not found", dataSet := false }
  else if resOk status then
    { tokenCleared := false, navigations := [], errorShown := none, dataSet := true }
  else
    { tokenCleared := false, navigations := []
      errorShown := some "Failed to load meeting details", dataSet := false }

/-- `deleteMeeting`: 401 clears and navigates; only 204 and 404 count as
success; anything else shows an inline error. -/
def deleteMeetingOn (status : Nat) : FetchOutcome :=
  if status = 401 then
    { tokenCleared := true, navigations := ["/login"], errorShown := none, dataSet := false }
  else if status ≠ 204 ∧ status ≠ 404 then
    { tokenCleared := false, navigations := []
      errorShown := some "Failed to delete meeting", dataSet := false }
  else
    { tokenCleared := false, navigations := [], errorShown := none, dataSet := true }

/-- `fetchTranscript`: 404 shows "No transcript found for this meeting"; any
other non-2xx status (401 included) only shows an inline error — the session
is never cleared and no navigation happens. -/
def fetchTranscriptOn (status : Nat) : FetchOutcome :=
  if status = 404 then
    { tokenCleared := false, navigations := []
      errorShown := some "No transcript found for this meeting", dataSet := false }
  else if resOk status then
    { tokenCleared := false, navigations := [], errorShown := none, dataSet := true }
  else
    { tokenCleared := false, navigations := []
      errorShown := some "Failed to fetch transcript", dataSet := false }

/-- `analyzeSelectedMeeting` / `onAnalyze`: every non-2xx status (401
included) only shows an inline error (the server-provided text is abstracted
to its fallback message). -/
def analyzeOn (status : Nat) : FetchOutcome :=
  if resOk status then
    { tokenCleared := false, navigations := [], errorShown := none, dataSet := true }
  else
    { tokenCleared := false, navigations := []
      errorShown := some "Failed to analyze meeting", dataSet := false }

/-- The Cognito logout URL the logout button redirects to. -/
def logoutRedirectUrl : String :=
  "https://auth.diviz.knovoselov.com/logout?client_id=5tb6pekknkes6eair7o39b3hh7&logout_uri=https%3A%2F%2Fdiviz.knovoselov.com"

/-- The observable outcome of the logout button handler: the `auth_token`
entry of session storage afterwards, the location the browser is sent to, and
whether an exception escaped the handler. -/
structure LogoutOutcome where
  storage : Option String
  href : String
  threw : Bool
  deriving DecidableEq

/-- The logout button `onClick`: `sessionStorage.removeItem('auth_token')`
inside a `try`/`catch` (so nothing can escape), then redirect to the hosted
logout URL.  `removeItem` of an absent key is a no-op. -/
def logoutClick (_storage : Option String) : LogoutOutcome :=
  { storage := none, href := logoutRedirectUrl, threw := false }

/-- `Math.round (a / b)` for integer `a` and positive integer `b`:
`⌊a / b + 1 / 2⌋ = ⌊(2 a + b) / (2 b)⌋`. -/
def jsRoundDiv (a b : Int) : Int := Int.fdiv (2 * a + b) (2 * b)

/-- `durationStr` of the meeting-info renderer:
`mins = max(0, round(durationMs / 60000))`, `h = floor(mins / 60)`,
`m = mins % 60`, rendered as `"<h>h <m>m"` when `h > 0` and `"<m>m"`
otherwise. -/
def durationStrOfMs (durationMs : Int) : String :=
  let mins : Nat := (max 0 (jsRoundDiv durationMs 60000)).toNat
  if mins / 60 > 0 then
    toString (mins / 60) ++ "h " ++ toString (mins % 60) ++ "m"
  else
    toString (mins % 60) ++ "m"

/-- `durationMs = endDate.getTime() - startDate.getTime()` fed to
`durationStr` (timestamps in epoch milliseconds). -/
def durationStrOf (startMs endMs : Int) : String := durationStrOfMs (endMs - startMs)

/-- Codes extractable from an event, as the specification describes them: the
code of the primary conferencing link and the codes of the conference
entry-point URIs. -/
def extractedCodes (ev : GEvent) : List String :=
  (match extractCode ev.hangoutLink with
   | some c => [c]
   | none => []) ++
  ((ev.conferenceData.map ConferenceData.entryPoints).getD []).filterMap
    (fun p => extractCode p.uri)

/-- String-level lowercasing. -/
def lowerStr (s : String) : String := String.mk (lowerL s.data)

/-- A bare Meet code in the sense of the specification: three dash-separated
ASCII-letter groups of lengths 3, 3 or 4, and 3. -/
def IsBareCode (l : List Char) : Prop :=
  ∃ g1 g2 g3 : List Char,
    l = codeShape g1 g2 g3 ∧
    g1.length = 3 ∧ (g2.length = 3 ∨ g2.length = 4) ∧ g3.length = 3 ∧
    (∀ c ∈ g1, isAsciiLetter c = true) ∧ (∀ c ∈ g2, isAsciiLetter c = true) ∧
    (∀ c ∈ g3, isAsciiLetter c = true)

/-- Concrete event whose primary link carries the code `abc-defg-hij`. -/
def evAbc : GEvent :=
  { id := some "ev-abc"
    status := some "confirmed"
    summary := some "Weekly sync"
    description := none
    startDateTime := some "2025-09-01T10:00:00Z"
    endDateTime := some "2025-09-01T11:05:00Z"
    organizer := some { email := some "alice@example.com" }
    attendees := none
    hangoutLink := some "https://meet.google.com/abc-defg-hij"
    conferenceData := none
    htmlLink := none }

/-- Concrete event whose only conferencing entry point carries the code
`xyz-defg-hij`. -/
def evXyz : GEvent :=
  { id := some "ev-xyz"
    status := some "confirmed"
    summary := some "Retro"
    description := none
    startDateTime := none
    endDateTime := none
    organizer := none
    attendees := none
    hangoutLink := none
    conferenceData := some { entryPoints := [{ uri := some "https://meet.google.com/xyz-defg-hij" }] }
    htmlLink := none }

/-- A calendar whose `events.list` call fails. -/
def calA : Calendar := { id := "calA", summary := "No permission" }

/-- A calendar whose `events.list` call succeeds. -/
def calB : Calendar := { id := "calB", summary := "Primary" }

/-- Environment for the resilience scenario: listing `calA` throws, listing
`calB` returns one matching event. -/
def resilienceEnv : Calendar → Except String (List GEvent) :=
  fun cal => if cal.id = "calB" then .ok [evAbc] else .error "no permission"

/-- Page-load state carrying both an authorization `code` query parameter and
an `id_token` fragment. -/
def bothTokensState : PageState :=
  { pathname := "/static/index.html"
    search := "?code=XYZ123"
    hash := "#id_token=abc"
    storage := none
    token := none }

/-- Page-load state carrying only an `id_token` fragment. -/
def fragmentOnlyState : PageState :=
  { pathname := "/static/index.html"
    search := ""
    hash := "#id_token=abc"
    storage := none
    token := none }

theorem asciiFold_eq_self_of_lower {c : Char} (h1 : 'a' ≤ c) (h2 : c ≤ 'z') :
    asciiFold c = c := by
  unfold asciiFold
  split <;> first | rfl | exact absurd h1 (by decide)

theorem asciiFold_eq_self_or_lower (c : Char) :
    asciiFold c = c ∨ ('a' ≤ asciiFold c ∧ asciiFold c ≤ 'z') := by
  unfold asciiFold
  split <;> first | exact Or.inr (by decide) | exact Or.inl rfl

theorem isAsciiLetter_asciiFold (c : Char) :
    isAsciiLetter (asciiFold c) = isAsciiLetter c := by
  unfold asciiFold
  split <;> first | decide | rfl

theorem isJsWs_asciiFold (c : Char) : isJsWs (asciiFold c) = isJsWs c := by
  unfold asciiFold
  split <;> first | decide | rfl

theorem asciiFold_eq_dash_iff (c : Char) : asciiFold c = '-' ↔ c = '-' := by
  unfold asciiFold
  split <;> first | decide | exact Iff.rfl

theorem jsLower_eq_self_of_lower {c : Char} (h1 : 'a' ≤ c) (h2 : c ≤ 'z') :
    jsLower c = c := by
  have hk : ¬(c = 'K') := fun hk => absurd (hk ▸ h2) (by decide)
  unfold jsLower
  rw [if_neg hk]
  exact asciiFold_eq_self_of_lower h1 h2

theorem jsLower_eq_self_or_lower (c : Char) :
    jsLower c = c ∨ ('a' ≤ jsLower c ∧ jsLower c ≤ 'z') := by
  by_cases hk : c = 'K'
  · subst hk
    exact Or.inr (by decide)
  · unfold jsLower
    rw [if_neg hk]
    exact asciiFold_eq_self_or_lower c

theorem jsLower_idem (c : Char) : jsLower (jsLower c) = jsLower c := by
  rcases jsLower_eq_self_or_lower c with h | ⟨h1, h2⟩
  · rw [h]; exact h
  · exact jsLower_eq_self_of_lower h1 h2

theorem isAsciiLetter_jsLower_of_ascii {c : Char} (h : c.toNat < 128) :
    isAsciiLetter (jsLower c) = isAsciiLetter c := by
  have hk : ¬(c = 'K') := fun hk => absurd (hk ▸ h) (by decide)
  unfold jsLower
  rw [if_neg hk]
  exact isAsciiLetter_asciiFold c

theorem isAsciiLetter_jsLower_of_letter {c : Char} (h : isAsciiLetter c = true) :
    isAsciiLetter (jsLower c) = true := by
  have hk : ¬(c = 'K') := fun hk => absurd (hk ▸ h) (by decide)
  unfold jsLower
  rw [if_neg hk, isAsciiLetter_asciiFold]
  exact h

theorem isJsWs_jsLower (c : Char) : isJsWs (jsLower c) = isJsWs c := by
  by_cases hk : c = 'K'
  · subst hk
    decide
  · unfold jsLower
    rw [if_neg hk]
    exact isJsWs_asciiFold c

theorem jsLower_eq_dash_iff (c : Char) : jsLower c = '-' ↔ c = '-' := by
  by_cases hk : c = 'K'
  · subst hk
    decide
  · unfold jsLower
    rw [if_neg hk]
    exact asciiFold_eq_dash_iff c

theorem lowerL_idem (l : List Char) : lowerL (lowerL l) = lowerL l := by
  unfold lowerL
  rw [List.map_map]
  exact List.map_congr_left (fun c _ => jsLower_idem c)

theorem not_ws_of_code_char {c : Char} (h : isAsciiLetter c = true ∨ c = '-') :
    isJsWs c = false := by
  cases hb : isJsWs c
  · rfl
  · exfalso
    have hw := hb
    simp only [isJsWs, Bool.or_eq_true, decide_eq_true_eq] at hw
    rcases hw with ((((h1 | h1) | h1) | h1) | h1) | h1 <;> subst h1 <;>
      rcases h with h | h <;> exact absurd h (by decide)

theorem dropWhile_eq_self_of_not {p : Char → Bool} {l : List Char}
    (h : ∀ c ∈ l, p c = false) : l.dropWhile p = l := by
  cases l with
  | nil => rfl
  | cons c rest =>
    have : p c = false := h c (List.mem_cons_self c rest)
    simp [List.dropWhile_cons, this]

theorem trimL_eq_self {l : List Char} (h : ∀ c ∈ l, isJsWs c = false) : trimL l = l := by
  unfold trimL
  rw [dropWhile_eq_self_of_not h,
    dropWhile_eq_self_of_not (fun c hc => h c (List.mem_reverse.mp hc)),
    List.reverse_reverse]

theorem dropWhile_head?_false {p : Char → Bool} :
    ∀ {l : List Char} {a : Char}, (l.dropWhile p).head? = some a → p a = false := by
  intro l
  induction l with
  | nil => intro a h; simp [List.dropWhile] at h
  | cons c rest ih =>
    intro a h
    by_cases hc : p c
    · rw [List.dropWhile_cons_of_pos hc] at h
      exact ih h
    · rw [List.dropWhile_cons_of_neg hc] at h
      simp only [List.head?_cons, Option.some.injEq] at h
      subst h
      exact Bool.eq_false_iff.mpr hc

theorem dropWhile_eq_self_of_head? {p : Char → Bool} {l : List Char}
    (h : ∀ a, l.head? = some a → p a = false) : l.dropWhile p = l := by
  cases l with
  | nil => rfl
  | cons c rest => simp [List.dropWhile_cons, h c rfl]

theorem trimL_trimL (l : List Char) : trimL (trimL l) = trimL l := by
  have hdef : ∀ m : List Char, trimL m = (m.dropWhile isJsWs).rdropWhile isJsWs := by
    intro m; rfl
  rw [hdef, hdef]
  have hdw : ((l.dropWhile isJsWs).rdropWhile isJsWs).dropWhile isJsWs =
      (l.dropWhile isJsWs).rdropWhile isJsWs := by
    apply dropWhile_eq_self_of_head?
    intro a ha
    rcases List.rdropWhile_prefix isJsWs (l := l.dropWhile isJsWs) with ⟨t, ht⟩
    have hhead : (l.dropWhile isJsWs).head? = some a := by
      rw [← ht]
      rcases hB : (l.dropWhile isJsWs).rdropWhile isJsWs with _ | ⟨b, B'⟩
      · rw [hB] at ha; simp at ha
      · rw [hB] at ha
        simp only [List.head?_cons, Option.some.injEq] at ha
        simp [ha]
    exact dropWhile_head?_false hhead
  rw [hdw, List.rdropWhile_idempotent]

theorem takeLetters_append {g : List Char} (r : List Char)
    (hg : ∀ c ∈ g, isAsciiLetter c = true) :
    takeLetters g.length (g ++ r) = some (g, r) := by
  induction g with
  | nil => rfl
  | cons c gs ih =>
    have hc : isAsciiLetter c = true := hg c (List.mem_cons_self c gs)
    simp only [List.length_cons, List.cons_append, takeLetters, hc, if_true,
      List.append_eq]
    rw [ih (fun d hd => hg d (List.mem_cons_of_mem c hd))]
    rfl

theorem takeLetters_spec :
    ∀ {n : Nat} {l g r : List Char}, takeLetters n l = some (g, r) →
      g.length = n ∧ (∀ c ∈ g, isAsciiLetter c = true) ∧ l = g ++ r := by
  intro n
  induction n with
  | zero =>
    intro l g r h
    simp only [takeLetters, Option.some.injEq, Prod.mk.injEq] at h
    obtain ⟨hg, hr⟩ := h
    subst hg; subst hr
    refine ⟨rfl, ?_, rfl⟩
    intro c hc
    cases hc
  | succ n ih =>
    intro l g r h
    cases l with
    | nil => simp [takeLetters] at h
    | cons c rest =>
      simp only [takeLetters] at h
      by_cases hc : isAsciiLetter c = true
      · rw [if_pos hc] at h
        cases htl : takeLetters n rest with
        | none => rw [htl] at h; simp at h
        | some p =>
          rw [htl] at h
          simp only [Option.map_some', Option.some.injEq] at h
          obtain ⟨hp1, hp2⟩ := Prod.mk.injEq .. |>.mp h.symm
          rcases ih (g := p.1) (r := p.2) (by rw [htl]) with ⟨hl, hletters, heq⟩
          refine ⟨?_, ?_, ?_⟩
          · rw [hp1]; simp [hl]
          · intro d hd
            rw [hp1] at hd
            rcases List.mem_cons.mp hd with hd | hd
            · subst hd; exact hc
            · exact hletters d hd
          · rw [hp1, hp2, heq]; rfl
      · rw [if_neg hc] at h; simp at h

theorem patAt_of_shape {g1 g2 g3 r : List Char}
    (h1 : g1.length = 3) (h3 : g3.length = 3)
    (hg1 : ∀ c ∈ g1, isAsciiLetter c = true) (hg2 : ∀ c ∈ g2, isAsciiLetter c = true)
    (hg3 : ∀ c ∈ g3, isAsciiLetter c = true) :
    patAt g2.length (codeShapeT g1 g2 g3 r) = some (codeShape g1 g2 g3) := by
  have t1 : takeLetters 3 (codeShapeT g1 g2 g3 r) =
      some (g1, '-' :: (g2 ++ ('-' :: (g3 ++ r)))) := by
    have h := takeLetters_append (g := g1) ('-' :: (g2 ++ ('-' :: (g3 ++ r)))) hg1
    rw [h1] at h
    exact h
  have t2 : takeLetters g2.length (g2 ++ ('-' :: (g3 ++ r))) =
      some (g2, '-' :: (g3 ++ r)) := takeLetters_append _ hg2
  have t3 : takeLetters 3 (g3 ++ r) = some (g3, r) := by
    have h := takeLetters_append (g := g3) r hg3
    rw [h3] at h
    exact h
  have he1 : expectDash ('-' :: (g2 ++ ('-' :: (g3 ++ r)))) =
      some (g2 ++ ('-' :: (g3 ++ r))) := by simp [expectDash]
  have he2 : expectDash ('-' :: (g3 ++ r)) = some (g3 ++ r) := by simp [expectDash]
  unfold patAt
  rw [t1]
  simp only [Option.some_bind, he1, t2, he2, t3, Option.map_some']

theorem expectDash_spec : ∀ {l r : List Char}, expectDash l = some r → l = '-' :: r := by
  intro l r h
  cases l with
  | nil => simp [expectDash] at h
  | cons d rest =>
    simp only [expectDash] at h
    by_cases hd : d = '-'
    · rw [if_pos hd] at h
      simp only [Option.some.injEq] at h
      rw [hd, h]
    · rw [if_neg hd] at h; simp at h

theorem patAt_spec {k : Nat} {l m : List Char} (h : patAt k l = some m) :
    ∃ g1 g2 g3 r : List Char,
      l = codeShapeT g1 g2 g3 r ∧
      m = codeShape g1 g2 g3 ∧
      g1.length = 3 ∧ g2.length = k ∧ g3.length = 3 ∧
      (∀ c ∈ g1, isAsciiLetter c = true) ∧ (∀ c ∈ g2, isAsciiLetter c = true) ∧
      (∀ c ∈ g3, isAsciiLetter c = true) := by
  unfold patAt at h
  cases ht1 : takeLetters 3 l with
  | none => rw [ht1] at h; simp at h
  | some p1 =>
    rw [ht1] at h
    rcases takeLetters_spec ht1 with ⟨hg1len, hg1lett, hleq⟩
    simp only [Option.some_bind] at h
    cases hd1 : expectDash p1.2 with
    | none => rw [hd1] at h; simp at h
    | some r2 =>
      rw [hd1] at h
      have hr1 := expectDash_spec hd1
      simp only [Option.some_bind] at h
      cases ht2 : takeLetters k r2 with
      | none => rw [ht2] at h; simp at h
      | some p2 =>
        rw [ht2] at h
        rcases takeLetters_spec ht2 with ⟨hg2len, hg2lett, hr2eq⟩
        simp only [Option.some_bind] at h
        cases hd2 : expectDash p2.2 with
        | none => rw [hd2] at h; simp at h
        | some r4 =>
          rw [hd2] at h
          have hr3 := expectDash_spec hd2
          simp only [Option.some_bind] at h
          cases ht3 : takeLetters 3 r4 with
          | none => rw [ht3] at h; simp at h
          | some p3 =>
            rw [ht3] at h
            rcases takeLetters_spec ht3 with ⟨hg3len, hg3lett, hr4eq⟩
            simp only [Option.map_some', Option.some.injEq] at h
            refine ⟨p1.1, p2.1, p3.1, p3.2, ?_, h.symm, hg1len, hg2len, hg3len,
              hg1lett, hg2lett, hg3lett⟩
            rw [hleq, hr1, hr2eq, hr3, hr4eq]
            simp [codeShapeT]

theorem patAt_length {k : Nat} {l m : List Char} (h : patAt k l = some m) :
    8 + k ≤ l.length := by
  rcases patAt_spec h with ⟨g1, g2, g3, r, hl, _, h1, h2, h3, _, _, _⟩
  rw [hl]
  simp [codeShapeT, h1, h2, h3]
  omega

theorem findPat_none_of_short {k : Nat} :
    ∀ {l : List Char}, l.length < 8 + k → findPat k l = none := by
  intro l
  induction l with
  | nil => intro _; rfl
  | cons c rest ih =>
    intro hlen
    have hp : patAt k (c :: rest) = none := by
      cases hp : patAt k (c :: rest) with
      | none => rfl
      | some m =>
        have := patAt_length hp
        simp only [List.length_cons] at this hlen
        omega
    simp only [findPat, hp]
    exact ih (by simp only [List.length_cons] at hlen; omega)

theorem findPat_of_head {k : Nat} {l m : List Char} (hne : l ≠ [])
    (h : patAt k l = some m) : findPat k l = some m := by
  cases l with
  | nil => exact absurd rfl hne
  | cons c rest => simp only [findPat, h]

theorem findPat_spec {k : Nat} :
    ∀ {l m : List Char}, findPat k l = some m →
      ∃ g1 g2 g3 : List Char,
        m = codeShape g1 g2 g3 ∧
        g1.length = 3 ∧ g2.length = k ∧ g3.length = 3 ∧
        (∀ c ∈ g1, isAsciiLetter c = true) ∧ (∀ c ∈ g2, isAsciiLetter c = true) ∧
        (∀ c ∈ g3, isAsciiLetter c = true) := by
  intro l
  induction l with
  | nil => intro m h; simp [findPat] at h
  | cons c rest ih =>
    intro m h
    simp only [findPat] at h
    cases hp : patAt k (c :: rest) with
    | some m' =>
      rw [hp] at h
      simp only [Option.some.injEq] at h
      subst h
      rcases patAt_spec hp with ⟨g1, g2, g3, r, _, hm, h1, h2, h3, hl1, hl2, hl3⟩
      exact ⟨g1, g2, g3, hm, h1, h2, h3, hl1, hl2, hl3⟩
    | none =>
      rw [hp] at h
      exact ih h

theorem takeLetters_lower (n : Nat) :
    ∀ {l : List Char}, (∀ c ∈ l, c.toNat < 128) →
      takeLetters n (lowerL l) =
        (takeLetters n l).map (fun p => (lowerL p.1, lowerL p.2)) := by
  induction n with
  | zero => intro l _; rfl
  | succ n ih =>
    intro l hl
    cases l with
    | nil => rfl
    | cons c rest =>
      show takeLetters (n + 1) (jsLower c :: lowerL rest) = _
      simp only [takeLetters,
        isAsciiLetter_jsLower_of_ascii (hl c (List.mem_cons_self c rest))]
      by_cases hc : isAsciiLetter c = true
      · rw [if_pos hc, if_pos hc, ih (fun d hd => hl d (List.mem_cons_of_mem c hd))]
        cases takeLetters n rest <;> rfl
      · rw [if_neg hc, if_neg hc]; rfl

theorem expectDash_lower (l : List Char) :
    expectDash (lowerL l) = (expectDash l).map lowerL := by
  cases l with
  | nil => rfl
  | cons d rest =>
    show expectDash (jsLower d :: lowerL rest) = _
    simp only [expectDash]
    by_cases hd : d = '-'
    · subst hd
      have h : jsLower '-' = '-' := by decide
      rw [h, if_pos rfl, if_pos rfl]
      rfl
    · have h2 : ¬(jsLower d = '-') := fun hc => hd ((jsLower_eq_dash_iff d).mp hc)
      rw [if_neg h2, if_neg hd]
      rfl

theorem lowerL_codeShape (a b c : List Char) :
    lowerL (codeShape a b c) = codeShape (lowerL a) (lowerL b) (lowerL c) := by
  simp [codeShape, lowerL, List.map_append, show jsLower '-' = '-' from by decide]

theorem patAt_lower (k : Nat) {l : List Char} (hl : ∀ c ∈ l, c.toNat < 128) :
    patAt k (lowerL l) = (patAt k l).map lowerL := by
  unfold patAt
  rw [takeLetters_lower 3 hl]
  cases ht1 : takeLetters 3 l with
  | none => rfl
  | some p1 =>
    have hp1 : ∀ c ∈ p1.2, c.toNat < 128 := by
      rcases takeLetters_spec ht1 with ⟨_, _, heq⟩
      intro c hc
      exact hl c (by rw [heq]; exact List.mem_append_right _ hc)
    simp only [Option.map_some', Option.some_bind]
    rw [expectDash_lower]
    cases hd1 : expectDash p1.2 with
    | none => rfl
    | some r2 =>
      have hr2 : ∀ c ∈ r2, c.toNat < 128 := by
        have hsp := expectDash_spec hd1
        intro c hc
        exact hp1 c (by rw [hsp]; exact List.mem_cons_of_mem _ hc)
      simp only [Option.map_some', Option.some_bind]
      rw [takeLetters_lower k hr2]
      cases ht2 : takeLetters k r2 with
      | none => rfl
      | some p2 =>
        have hp2 : ∀ c ∈ p2.2, c.toNat < 128 := by
          rcases takeLetters_spec ht2 with ⟨_, _, heq⟩
          intro c hc
          exact hr2 c (by rw [heq]; exact List.mem_append_right _ hc)
        simp only [Option.map_some', Option.some_bind]
        rw [expectDash_lower]
        cases hd2 : expectDash p2.2 with
        | none => rfl
        | some r4 =>
          have hr4 : ∀ c ∈ r4, c.toNat < 128 := by
            have hsp := expectDash_spec hd2
            intro c hc
            exact hp2 c (by rw [hsp]; exact List.mem_cons_of_mem _ hc)
          simp only [Option.map_some', Option.some_bind]
          rw [takeLetters_lower 3 hr4]
          cases takeLetters 3 r4 with
          | none => rfl
          | some p3 =>
            simp only [Option.map_some', lowerL_codeShape]

theorem findPat_lower (k : Nat) :
    ∀ {l : List Char}, (∀ c ∈ l, c.toNat < 128) →
      findPat k (lowerL l) = (findPat k l).map lowerL := by
  intro l
  induction l with
  | nil => intro _; rfl
  | cons c rest ih =>
    intro hl
    have hp : patAt k (jsLower c :: lowerL rest) = (patAt k (c :: rest)).map lowerL :=
      patAt_lower k hl
    show findPat k (jsLower c :: lowerL rest) = _
    cases hpp : patAt k (c :: rest) with
    | some m =>
      rw [hpp] at hp
      simp only [findPat, hp, hpp]
      rfl
    | none =>
      rw [hpp] at hp
      simp only [findPat, hp, hpp]
      exact ih (fun d hd => hl d (List.mem_cons_of_mem c hd))

theorem trimL_lower (l : List Char) : trimL (lowerL l) = lowerL (trimL l) := by
  have hfun : (isJsWs ∘ jsLower) = isJsWs := funext isJsWs_jsLower
  show ((((l.map jsLower).dropWhile isJsWs).reverse).dropWhile isJsWs).reverse =
    ((((l.dropWhile isJsWs).reverse).dropWhile isJsWs).reverse).map jsLower
  rw [List.dropWhile_map, hfun, ← List.map_reverse, List.dropWhile_map, hfun,
    ← List.map_reverse]

theorem codeShape_ne_nil (a b c : List Char) : codeShape a b c ≠ [] := by
  unfold codeShape
  intro h
  rcases List.append_eq_nil.mp h with ⟨_, h2⟩
  exact absurd h2 (by simp)

theorem codeShape_length (a b c : List Char) :
    (codeShape a b c).length = a.length + b.length + c.length + 2 := by
  simp [codeShape]
  omega

theorem codeShapeT_nil (a b c : List Char) : codeShapeT a b c [] = codeShape a b c := by
  simp [codeShapeT, codeShape]

theorem codeShape_chars {a b c : List Char}
    (ha : ∀ d ∈ a, isAsciiLetter d = true) (hb : ∀ d ∈ b, isAsciiLetter d = true)
    (hc : ∀ d ∈ c, isAsciiLetter d = true) :
    ∀ d ∈ codeShape a b c, isAsciiLetter d = true ∨ d = '-' := by
  intro d hd
  simp only [codeShape, List.mem_append, List.mem_cons] at hd
  rcases hd with h | h | h | h | h
  · exact Or.inl (ha d h)
  · exact Or.inr h
  · exact Or.inl (hb d h)
  · exact Or.inr h
  · exact Or.inl (hc d h)

theorem mem_lowerL_letter {g : List Char} (hg : ∀ d ∈ g, isAsciiLetter d = true) :
    ∀ c ∈ lowerL g, isAsciiLetter c = true := by
  intro c hc
  rcases List.mem_map.mp hc with ⟨d, hd, rfl⟩
  exact isAsciiLetter_jsLower_of_letter (hg d hd)

theorem mem_of_mem_trimL {c : Char} {l : List Char} (h : c ∈ trimL l) : c ∈ l := by
  unfold trimL at h
  rw [List.mem_reverse] at h
  have h2 : c ∈ (l.dropWhile isJsWs).reverse := by
    rcases (List.dropWhile_suffix isJsWs : _ <:+ (l.dropWhile isJsWs).reverse) with ⟨t, ht⟩
    rw [← ht]
    exact List.mem_append_right _ h
  rw [List.mem_reverse] at h2
  rcases (List.dropWhile_suffix isJsWs : _ <:+ l) with ⟨t, ht⟩
  rw [← ht]
  exact List.mem_append_right _ h2

theorem codeFromInputL_bare {l : List Char} (h : IsBareCode l) :
    codeFromInputL l = lowerL l := by
  rcases h with ⟨g1, g2, g3, rfl, h1, h2, h3, hg1, hg2, hg3⟩
  have hchars := codeShape_chars hg1 hg2 hg3
  have htrim : trimL (codeShape g1 g2 g3) = codeShape g1 g2 g3 :=
    trimL_eq_self (fun c hc => not_ws_of_code_char (hchars c hc))
  have hhead : codeShape g1 g2 g3 ≠ [] := codeShape_ne_nil _ _ _
  have hpat : patAt g2.length (codeShape g1 g2 g3) = some (codeShape g1 g2 g3) := by
    have h := patAt_of_shape (r := []) h1 h3 hg1 hg2 hg3
    rw [codeShapeT_nil] at h
    exact h
  rcases h2 with h2 | h2
  · have hf4 : findPat 4 (codeShape g1 g2 g3) = none :=
      findPat_none_of_short (by rw [codeShape_length]; omega)
    have hf3 : findPat 3 (codeShape g1 g2 g3) = some (codeShape g1 g2 g3) :=
      findPat_of_head hhead (by rw [← h2]; exact hpat)
    simp only [codeFromInputL, htrim, hf4, hf3]
  · have hf4 : findPat 4 (codeShape g1 g2 g3) = some (codeShape g1 g2 g3) :=
      findPat_of_head hhead (by rw [← h2]; exact hpat)
    simp only [codeFromInputL, htrim, hf4]

theorem bare_of_findPat {k : Nat} {l m : List Char} (hk : k = 3 ∨ k = 4)
    (h : findPat k l = some m) : IsBareCode (lowerL m) := by
  rcases findPat_spec h with ⟨g1, g2, g3, hm, h1, h2, h3, hg1, hg2, hg3⟩
  refine ⟨lowerL g1, lowerL g2, lowerL g3, by rw [hm, lowerL_codeShape], ?_, ?_, ?_,
    mem_lowerL_letter hg1, mem_lowerL_letter hg2, mem_lowerL_letter hg3⟩
  · simp [lowerL, h1]
  · rcases hk with hk | hk
    · exact Or.inl (by simp [lowerL, h2, hk])
    · exact Or.inr (by simp [lowerL, h2, hk])
  · simp [lowerL, h3]

theorem codeFromInputL_idem {l : List Char} (hascii : ∀ c ∈ l, c.toNat < 128) :
    codeFromInputL (codeFromInputL l) = codeFromInputL l := by
  cases hf4 : findPat 4 (trimL l) with
  | some m =>
    have hres : codeFromInputL l = lowerL m := by
      simp only [codeFromInputL, hf4]
    rw [hres]
    exact (codeFromInputL_bare (bare_of_findPat (Or.inr rfl) hf4)).trans (lowerL_idem m)
  | none =>
    cases hf3 : findPat 3 (trimL l) with
    | some m =>
      have hres : codeFromInputL l = lowerL m := by
        simp only [codeFromInputL, hf4, hf3]
      rw [hres]
      exact (codeFromInputL_bare (bare_of_findPat (Or.inl rfl) hf3)).trans (lowerL_idem m)
    | none =>
      have hres : codeFromInputL l = lowerL (trimL l) := by
        simp only [codeFromInputL, hf4, hf3]
      rw [hres]
      have htrascii : ∀ c ∈ trimL l, c.toNat < 128 :=
        fun c hc => hascii c (mem_of_mem_trimL hc)
      have htr : trimL (lowerL (trimL l)) = lowerL (trimL l) := by
        rw [trimL_lower, trimL_trimL]
      have hf4b : findPat 4 (lowerL (trimL l)) = none := by
        rw [findPat_lower 4 htrascii, hf4]
        rfl
      have hf3b : findPat 3 (lowerL (trimL l)) = none := by
        rw [findPat_lower 3 htrascii, hf3]
        rfl
      simp only [codeFromInputL, htr, hf4b, hf3b, lowerL_idem]

theorem extractCode_lower {u : Option String} {c : String} (h : extractCode u = some c) :
    lowerStr c = c := by
  unfold extractCode at h
  cases u with
  | none => simp at h
  | some s =>
    dsimp only at h
    by_cases hs : s = ""
    · rw [if_pos hs] at h; simp at h
    · rw [if_neg hs] at h
      cases hm : meetScan s.data with
      | none => rw [hm] at h; simp at h
      | some run =>
        rw [hm] at h
        simp only [Option.map_some', Option.some.injEq] at h
        rw [← h]
        show String.mk (lowerL (lowerL run)) = String.mk (lowerL run)
        rw [lowerL_idem]

theorem extractedCodes_lower {ev : GEvent} {c : String} (h : c ∈ extractedCodes ev) :
    lowerStr c = c := by
  unfold extractedCodes at h
  rcases List.mem_append.mp h with h | h
  · cases he : extractCode ev.hangoutLink with
    | none => rw [he] at h; cases h
    | some c2 =>
      rw [he] at h
      have : c = c2 := List.mem_singleton.mp h
      subst this
      exact extractCode_lower he
  · rcases List.mem_filterMap.mp h with ⟨p, _, hp⟩
    exact extractCode_lower hp

theorem codeFromInputL_is_lower (l : List Char) :
    ∃ m : List Char, codeFromInputL l = lowerL m := by
  unfold codeFromInputL
  cases hf4 : findPat 4 (trimL l) with
  | some m => exact ⟨m, rfl⟩
  | none =>
    cases hf3 : findPat 3 (trimL l) with
    | some m => exact ⟨m, rfl⟩
    | none => exact ⟨trimL l, rfl⟩

theorem matchesEvent_iff (ev : GEvent) (code : String) :
    matchesEvent ev code = true ↔
      ∃ c ∈ extractedCodes ev, strIncludes c code = true := by
  unfold matchesEvent extractedCodes
  cases he : extractCode ev.hangoutLink with
  | none =>
    simp only [Bool.false_or, List.any_eq_true, List.nil_append, List.mem_filterMap]
  | some c2 =>
    simp only [Bool.or_eq_true, List.any_eq_true, List.cons_append, List.nil_append,
      List.mem_cons, List.mem_filterMap]
    constructor
    · rintro (h | ⟨c, hc, hinc⟩)
      · exact ⟨c2, Or.inl rfl, h⟩
      · exact ⟨c, Or.inr hc, hinc⟩
    · rintro ⟨c, hc | hc, hinc⟩
      · subst hc; exact Or.inl hinc
      · exact Or.inr ⟨c, hc, hinc⟩

theorem mem_collectSearched {listEvents : Calendar → Except String (List GEvent)}
    {cal : Calendar} {items : List GEvent} {ev : GEvent} :
    ∀ {cals : List Calendar}, cal ∈ cals → listEvents cal = .ok items → ev ∈ items →
      (cal, ev) ∈ collectSearched listEvents cals := by
  intro cals
  induction cals with
  | nil => intro h; exact absurd h (List.not_mem_nil cal)
  | cons c rest ih =>
    intro hmem hok hev
    rcases List.mem_cons.mp hmem with h | h
    · subst h
      simp only [collectSearched, hok]
      exact List.mem_append_left _ (List.mem_map_of_mem _ hev)
    · exact List.mem_append_right _ (ih h hok hev)

/-- C1 counterexample: on a page load whose URL carries both an authorization
`code` query parameter (`?code=XYZ123`) and a fragment token
(`#id_token=abc`), the initialize routine adopts the fragment token `abc` as
the session token and issues no authorization-code exchange request — the
code-exchange path claimed by the specification does not exist. -/
theorem claim_C1_counterexample :
    (handleTokenUpdate bothTokensState).token = some "abc" ∧
    NetRequest.exchangeCode "XYZ123" ∉ (handleTokenUpdate bothTokensState).requests := by
  decide

/-- C1 (amended): for every page-load URL that carries both an authorization
`code` query parameter and a truthy fragment token, the initialize routine
performs no network request (in particular it never exchanges the code with
the backend callback endpoint); the fragment token becomes the session token
and is persisted, and the visible URL is replaced by the bare pathname, which
strips the query string (and the fragment) from the address bar. -/
theorem claim_C1_amended (st : PageState) (_hc : hasCodeParam st.search = true)
    (hf : jsTruthy (fragTokenOf st) = true) :
    (handleTokenUpdate st).requests = [] ∧
    (handleTokenUpdate st).token = fragTokenOf st ∧
    (handleTokenUpdate st).storage = fragTokenOf st ∧
    (handleTokenUpdate st).url = st.pathname := by
  simp [handleTokenUpdate, hf]

/-- C1 witness: the amended claim evaluated on the concrete page state with
`?code=XYZ123` and `#id_token=abc`. -/
theorem claim_C1_witness :
    hasCodeParam bothTokensState.search = true ∧
    jsTruthy (fragTokenOf bothTokensState) = true ∧
    (handleTokenUpdate bothTokensState).requests = [] ∧
    (handleTokenUpdate bothTokensState).url = bothTokensState.pathname :=
  ⟨by decide, by decide,
    (claim_C1_amended bothTokensState (by decide) (by decide)).1,
    (claim_C1_amended bothTokensState (by decide) (by decide)).2.2.2⟩

/-- C2: an event is in the returned matches of `searchMeetByCode` if and only
if it was collected from a calendar listing and some code extracted from its
`hangoutLink` or from some conference entry-point URI contains the normalized
input code as a substring; the comparison is between lowercased strings
(extracted codes and the normalized code are their own lowercasings); and in
particular an event carrying `abc-defg-hij` and one carrying `xyz-defg-hij`
both match input `defg`. -/
theorem claim_C2_substring_matching :
    (∀ (cals : List Calendar) (listEvents : Calendar → Except String (List GEvent))
        (input : String) (x : Calendar × GEvent),
      x ∈ (searchMeetByCode cals listEvents input).«matches» ↔
        x ∈ collectSearched listEvents cals ∧
          ∃ c ∈ extractedCodes x.2, strIncludes c (codeFromInput input) = true) ∧
    (∀ (ev : GEvent) (c : String), c ∈ extractedCodes ev → lowerStr c = c) ∧
    (∀ s : String, lowerStr (codeFromInput s) = codeFromInput s) ∧
    matchesEvent evAbc (codeFromInput "defg") = true ∧
    matchesEvent evXyz (codeFromInput "defg") = true := by
  refine ⟨?_, ?_, ?_, by decide, by decide⟩
  · intro cals listEvents input x
    show x ∈ (collectSearched listEvents cals).filter
        (fun p => matchesEvent p.2 (codeFromInput input)) ↔ _
    rw [List.mem_filter]
    exact and_congr_right (fun _ => matchesEvent_iff x.2 _)
  · intro ev c h
    exact extractedCodes_lower h
  · intro s
    rcases codeFromInputL_is_lower s.data with ⟨m, hm⟩
    show String.mk (lowerL (codeFromInputL s.data)) = String.mk (codeFromInputL s.data)
    rw [hm, lowerL_idem]

/-- C2 witness: a concrete extracted code together with the lowercase-stability
part of the claim applied to it. -/
theorem claim_C2_witness :
    "abc-defg-hij" ∈ extractedCodes evAbc ∧
    lowerStr "abc-defg-hij" = "abc-defg-hij" :=
  ⟨by decide, claim_C2_substring_matching.2.1 evAbc "abc-defg-hij" (by decide)⟩

/-- C3: the normalizer maps `"Check https://meet.google.com/abc-defg-hij now"`
to `abc-defg-hij`; an input that is already a bare three-group dash-separated
code (middle group of three or four letters) passes through lowercased; and
when neither pattern occurs in the trimmed input, the result is the trimmed
input lowercased. -/
theorem claim_C3_normalization :
    codeFromInput "Check https://meet.google.com/abc-defg-hij now" = "abc-defg-hij" ∧
    (∀ l : List Char, IsBareCode l → codeFromInputL l = lowerL l) ∧
    (∀ l : List Char, findPat 4 (trimL l) = none → findPat 3 (trimL l) = none →
      codeFromInputL l = lowerL (trimL l)) := by
  refine ⟨by decide, fun l h => codeFromInputL_bare h, ?_⟩
  intro l h4 h3
  simp only [codeFromInputL, h4, h3]

/-- C3 witness: the bare-code pass-through applied to the concrete mixed-case
input `Abc-Defg-Hij`. -/
theorem claim_C3_witness :
    IsBareCode ("Abc-Defg-Hij".data) ∧
    codeFromInputL ("Abc-Defg-Hij".data) = lowerL ("Abc-Defg-Hij".data) := by
  have hb : IsBareCode ("Abc-Defg-Hij".data) :=
    ⟨"Abc".data, "Defg".data, "Hij".data, by decide, by decide, Or.inr (by decide),
      by decide, by decide, by decide, by decide⟩
  exact ⟨hb, claim_C3_normalization.2.1 _ hb⟩

/-- C4 (amended): the tabbed-page variant of `searchMeetByCode` lists events
with `timeMin` 30 days before now and `timeMax` 7 days after now, with
single-instance expansion and conferencing metadata; the two-tab variant uses
the same `timeMin` but `timeMax = now` (no forward window). -/
theorem claim_C4_time_window (now : Int) (cal : Calendar) :
    (eventsListParamsV2 now cal).timeMin = now - 30 * msPerDay ∧
    (eventsListParamsV2 now cal).timeMax = now + 7 * msPerDay ∧
    (eventsListParamsV2 now cal).singleEvents = true ∧
    (eventsListParamsV2 now cal).conferenceDataVersion = 1 ∧
    (eventsListParamsV1 now cal).timeMin = now - 30 * msPerDay ∧
    (eventsListParamsV1 now cal).timeMax = now ∧
    (eventsListParamsV1 now cal).singleEvents = true ∧
    (eventsListParamsV1 now cal).conferenceDataVersion = 1 :=
  ⟨rfl, rfl, rfl, rfl, rfl, rfl, rfl, rfl⟩

/-- C4 counterexample: at `now = 0`, the two-tab variant requests
`timeMax = 0`, not `0 + 7` days — the claimed 7-day forward window does not
hold for every search invocation in the repository. -/
theorem claim_C4_counterexample :
    ¬((eventsListParamsV1 0 calA).timeMax = 0 + 7 * msPerDay) := by
  decide

/-- C5 (amended): on an HTTP 401 response, the user fetch, meetings list,
meeting details and meeting delete handlers clear the session token and
navigate exactly once to `/login`; the transcript fetch and analyze handlers
do not clear the token and do not navigate — they only show an inline error. -/
theorem claim_C5_status_handling :
    fetchUserOn 401 =
      { tokenCleared := true, navigations := ["/login"], errorShown := none,
        dataSet := false } ∧
    fetchMeetingsOn 401 =
      { tokenCleared := true, navigations := ["/login"], errorShown := none,
        dataSet := false } ∧
    fetchMeetingDetailsOn 401 =
      { tokenCleared := true, navigations := ["/login"], errorShown := none,
        dataSet := false } ∧
    deleteMeetingOn 401 =
      { tokenCleared := true, navigations := ["/login"], errorShown := none,
        dataSet := false } ∧
    fetchTranscriptOn 401 =
      { tokenCleared := false, navigations := [],
        errorShown := some "Failed to fetch transcript", dataSet := false } ∧
    analyzeOn 401 =
      { tokenCleared := false, navigations := [],
        errorShown := some "Failed to analyze meeting", dataSet := false } := by
  refine ⟨rfl, rfl, rfl, rfl, rfl, rfl⟩

/-- C5 counterexample: a 401 on the transcript fetch does not clear the
session token and performs no navigation, contradicting the claimed uniform
401 handling. -/
theorem claim_C5_counterexample :
    ¬((fetchTranscriptOn 401).tokenCleared = true ∧
      (fetchTranscriptOn 401).navigations = ["/login"]) := by
  decide

/-- C6: for every calendar enumeration and per-calendar listing outcome, the
returned `searchedCalendars` counts all enumerated calendars (failing ones
included), and every matching event of every non-failing calendar appears in
the returned matches. -/
theorem claim_C6_resilience (cals : List Calendar)
    (listEvents : Calendar → Except String (List GEvent)) (input : String) :
    (searchMeetByCode cals listEvents input).searchedCalendars = cals.length ∧
    ∀ cal items, cal ∈ cals → listEvents cal = .ok items →
      ∀ ev ∈ items, matchesEvent ev (codeFromInput input) = true →
        (cal, ev) ∈ (searchMeetByCode cals listEvents input).«matches» := by
  refine ⟨rfl, ?_⟩
  intro cal items hcal hok ev hev hmatch
  show (cal, ev) ∈ (collectSearched listEvents cals).filter
      (fun p => matchesEvent p.2 (codeFromInput input))
  rw [List.mem_filter]
  exact ⟨mem_collectSearched hcal hok hev, hmatch⟩

/-- C6 witness: with `calA` failing and `calB` returning one matching event,
the search over both calendars still returns the match and counts two
calendars. -/
theorem claim_C6_witness :
    resilienceEnv calA = .error "no permission" ∧
    (searchMeetByCode [calA, calB] resilienceEnv "defg").searchedCalendars = 2 ∧
    (calB, evAbc) ∈ (searchMeetByCode [calA, calB] resilienceEnv "defg").«matches» := by
  refine ⟨rfl, (claim_C6_resilience [calA, calB] resilienceEnv "defg").1, ?_⟩
  exact (claim_C6_resilience [calA, calB] resilienceEnv "defg").2 calB [evAbc]
    (by decide) rfl evAbc (by decide) (by decide)

/-- C7: on every page load whose URL fragment carries a truthy
`access_token`/`id_token` value, initialization adopts that token as the
session token, persists it to session storage, and replaces the visible URL
with the bare pathname. -/
theorem claim_C7_fragment_token (st : PageState)
    (hf : jsTruthy (fragTokenOf st) = true) :
    (handleTokenUpdate st).token = fragTokenOf st ∧
    (handleTokenUpdate st).storage = fragTokenOf st ∧
    (handleTokenUpdate st).url = st.pathname := by
  simp [handleTokenUpdate, hf]

/-- C7 witness: the claim evaluated on a page load with `#id_token=abc`:
the session adopts `abc`, stores it, and the address bar shows the bare
pathname. -/
theorem claim_C7_witness :
    jsTruthy (fragTokenOf fragmentOnlyState) = true ∧
    (handleTokenUpdate fragmentOnlyState).token = some "abc" ∧
    (handleTokenUpdate fragmentOnlyState).storage = some "abc" ∧
    (handleTokenUpdate fragmentOnlyState).url = "/static/index.html" := by
  have hf : jsTruthy (fragTokenOf fragmentOnlyState) = true := by decide
  have h := claim_C7_fragment_token fragmentOnlyState hf
  have hval : fragTokenOf fragmentOnlyState = some "abc" := by decide
  exact ⟨hf, h.1.trans hval, h.2.1.trans hval, h.2.2⟩

/-- C8: the logout handler leaves no persisted token entry when invoked with
session storage already empty, never lets an exception escape, and running it
twice has the same effect as running it once. -/
theorem claim_C8_logout_idempotent :
    (logoutClick none).storage = none ∧ (logoutClick none).threw = false ∧
    ∀ s : Option String, logoutClick ((logoutClick s).storage) = logoutClick s :=
  ⟨rfl, rfl, fun _ => rfl⟩

/-- C9: for valid start/end timestamps the rendered duration is end minus
start rounded to whole minutes, shown as `"<h>h <m>m"` when the rounded total
reaches 60 minutes and as `"<m>m"` (the remainder modulo 60) otherwise. -/
theorem claim_C9_duration_format (startMs endMs : Int) :
    (60 ≤ (max 0 (jsRoundDiv (endMs - startMs) 60000)).toNat →
      durationStrOf startMs endMs =
        toString ((max 0 (jsRoundDiv (endMs - startMs) 60000)).toNat / 60) ++ "h " ++
          toString ((max 0 (jsRoundDiv (endMs - startMs) 60000)).toNat % 60) ++ "m") ∧
    ((max 0 (jsRoundDiv (endMs - startMs) 60000)).toNat < 60 →
      durationStrOf startMs endMs =
        toString ((max 0 (jsRoundDiv (endMs - startMs) 60000)).toNat % 60) ++ "m") := by
  unfold durationStrOf durationStrOfMs
  constructor
  · intro h
    rw [if_pos (by omega)]
  · intro h
    rw [if_neg (by omega)]

/-- C9 witness: a 65-minute meeting (3,900,000 ms) renders as `1h 5m`. -/
theorem claim_C9_witness :
    60 ≤ (max 0 (jsRoundDiv ((3900000 : Int) - 0) 60000)).toNat ∧
    durationStrOf 0 3900000 = "1h 5m" := by
  refine ⟨by decide, ?_⟩
  have h := (claim_C9_duration_format 0 3900000).1 (by decide)
  rw [h]
  rfl

/-- C10 counterexample: on `"Xabc-defg-hiKY"` (U+212A KELVIN SIGN, whose
`toLowerCase` is the ASCII letter `k` although `[a-z]` under the `i` flag does
not match it) neither pattern matches, so the first normalization lowercases
the whole input to `"xabc-defg-hiky"`; normalizing that again finds the
pattern and returns `"abc-defg-hik"`, so the normalizer is not idempotent. -/
theorem claim_C10_counterexample :
    codeFromInput "Xabc-defg-hiKY" = "xabc-defg-hiky" ∧
    codeFromInput (codeFromInput "Xabc-defg-hiKY") = "abc-defg-hik" ∧
    ¬(codeFromInput (codeFromInput "Xabc-defg-hiKY") =
        codeFromInput "Xabc-defg-hiKY") := by
  refine ⟨by decide, by decide, by decide⟩

/-- C10 (amended): the Meet-code normalizer is idempotent on every input
string of ASCII characters — normalizing an already normalized such code
returns it unchanged.  (Lowercasing a non-ASCII character such as U+212A can
create a fresh pattern match, which is what the counterexample exploits.) -/
theorem claim_C10_normalize_idempotent (s : String)
    (h : ∀ c ∈ s.data, c.toNat < 128) :
    codeFromInput (codeFromInput s) = codeFromInput s := by
  show String.mk (codeFromInputL (codeFromInputL s.data)) = String.mk (codeFromInputL s.data)
  rw [codeFromInputL_idem h]

/-- C10 witness: the amended idempotence applied to the concrete ASCII input
`"  AKT-NAWS-KTV  "`. -/
theorem claim_C10_witness :
    (∀ c ∈ ("  AKT-NAWS-KTV  " : String).data, c.toNat < 128) ∧
    codeFromInput (codeFromInput "  AKT-NAWS-KTV  ") = codeFromInput "  AKT-NAWS-KTV  " :=
  ⟨by decide, claim_C10_normalize_idempotent "  AKT-NAWS-KTV  " (by decide)⟩

end Diviz
